import Mathlib

/-!
# Verification of the WebGL-plot line-buffer and renderer

Shallow embedding of the line-buffer (`WebglLine`) and renderer (`WebGLPlot`)
classes of `src/vanilla/dist/microphone.js`, together with proofs of the
specification's claims about them.

Buffers are modelled as `List ℚ`; a JS `Float32Array` access with an integer
index silently ignores out-of-bounds writes and yields `undefined` on
out-of-bounds reads, which we model with `f32set` / `f32get` below
(`undefined` becomes `none`).  Floating-point rounding is out of scope: the
spec's claims are stated "up to rounding to the floating-point storage
width", so values are rationals.
-/

/-- Write semantics of a JS `Float32Array`: `buf[index] = v`.  A negative or
too-large index is silently ignored (`List.set` is already a no-op above the
length, matching the typed-array behaviour). -/
def f32set (buf : List ℚ) (index : ℤ) (v : ℚ) : List ℚ :=
  if 0 ≤ index then buf.set index.toNat v else buf

/-- Read semantics of a JS `Float32Array`: `buf[index]`, `undefined` (= `none`) when
out of bounds. -/
def f32get (buf : List ℚ) (index : ℤ) : Option ℚ :=
  if 0 ≤ index then buf[index.toNat]? else none

/-- ColorRGBA from the source: four channels, immutable after
construction. -/
structure ColorRGBA where
  r : ℚ
  g : ℚ
  b : ℚ
  a : ℚ
  deriving DecidableEq

/-- WebglLine, including the `WebglBaseLine` fields it inherits: a flat
buffer `xy` of interleaved (x, y) pairs plus draw-time transform state.  The
GPU-handle fields `_vbuffer` / `_coord` are backend resource identifiers and
are not modelled. -/
structure WebglLine where
  scaleX : ℚ
  scaleY : ℚ
  offsetX : ℚ
  offsetY : ℚ
  loop : Bool
  visible : Bool
  intensity : ℚ
  xy : List ℚ
  numPoints : ℕ
  color : ColorRGBA
  webglNumPoints : ℕ
  deriving DecidableEq

/-- The `WebglLine` constructor: base-class defaults, then
`webglNumPoints = numPoints = n` and `xy = new Float32Array(2 * n)`
(zero-initialised). -/
def WebglLine.create (c : ColorRGBA) (numPoints : ℕ) : WebglLine :=
  { scaleX := 1, scaleY := 1, offsetX := 0, offsetY := 0,
    loop := false, visible := true, intensity := 1,
    xy := List.replicate (2 * numPoints) 0,
    numPoints := numPoints, color := c, webglNumPoints := numPoints }

/-- setX from the source: `this.xy[index * 2] = x`. -/
def WebglLine.setX (l : WebglLine) (index : ℤ) (x : ℚ) : WebglLine :=
  { l with xy := f32set l.xy (index * 2) x }

/-- setY from the source: `this.xy[index * 2 + 1] = y`. -/
def WebglLine.setY (l : WebglLine) (index : ℤ) (y : ℚ) : WebglLine :=
  { l with xy := f32set l.xy (index * 2 + 1) y }

/-- getX from the source: `this.xy[index * 2]`. -/
def WebglLine.getX (l : WebglLine) (index : ℤ) : Option ℚ :=
  f32get l.xy (index * 2)

/-- getY from the source: `this.xy[index * 2 + 1]`. -/
def WebglLine.getY (l : WebglLine) (index : ℤ) : Option ℚ :=
  f32get l.xy (index * 2 + 1)

/-- lineSpaceX from the source: `for (i = 0; i < numPoints; i++)
setX(i, start + stepSize * i)`.  The loop bound `this.numPoints` is constant
through the loop (`setX` writes only `xy`), so the initial value is used. -/
def WebglLine.lineSpaceX (l : WebglLine) (start stepSize : ℚ) : WebglLine :=
  (List.range l.numPoints).foldl
    (fun acc (i : ℕ) => acc.setX (i : ℤ) (start + stepSize * (i : ℚ))) l

/-- constY from the source: `for (i = 0; i < numPoints; i++) setY(i, c)`. -/
def WebglLine.constY (l : WebglLine) (c : ℚ) : WebglLine :=
  (List.range l.numPoints).foldl (fun acc (i : ℕ) => acc.setY (i : ℤ) c) l

/-- shiftAdd from the source: shift the y-values left by `data.length` and write the
new values at the tail.  The JS loop bound `this.numPoints - shiftSize` is
negative when `shiftSize > numPoints`, giving zero iterations, which
truncated `ℕ` subtraction reproduces; `this.numPoints` is constant through
both loops (`setY` writes only `xy`).  The read `getY(i + shiftSize)` is
always in bounds when `xy.length = 2 * numPoints`, so the `getD 0` default
is never exercised there. -/
def WebglLine.shiftAdd (l : WebglLine) (data : List ℚ) : WebglLine :=
  let shiftSize := data.length
  let l1 := (List.range (l.numPoints - shiftSize)).foldl
    (fun acc (i : ℕ) =>
      acc.setY (i : ℤ) ((acc.getY ((i : ℤ) + (shiftSize : ℤ))).getD 0)) l
  (List.range shiftSize).foldl
    (fun acc (i : ℕ) =>
      acc.setY ((i : ℤ) + (l.numPoints : ℤ) - (shiftSize : ℤ))
        (data.getD i 0)) l1

/-- One backend drawing command, as issued by `WebGLPlot.update` /
`WebGLPlot.addLine`.  `drawArrays` carries `true` for `LINE_LOOP` and
`false` for `LINE_STRIP`. -/
inductive GLCommand where
  | useProgram : GLCommand
  | uniformMatrix2fv (m00 m01 m10 m11 : ℚ) : GLCommand
  | uniform2fv (x y : ℚ) : GLCommand
  | uniform4fv (r g b a : ℚ) : GLCommand
  | bufferData (buf : List ℚ) : GLCommand
  | drawArrays (loopMode : Bool) (first count : ℕ) : GLCommand
  deriving DecidableEq

/-- WebGLPlot from the source: global transform state plus the ordered line collection
`_lines` (insertion order = draw order).  The WebGL context itself is the
external backend; commands sent to it are collected as a `GLCommand`
trace. -/
structure WebGLPlot where
  gScaleX : ℚ
  gScaleY : ℚ
  gXYratio : ℚ
  gOffsetX : ℚ
  gOffsetY : ℚ
  lines : List WebglLine
  deriving DecidableEq

/-- update from the source: `this.lines.forEach((line) => { if (line.visible) { ... } })`.
The fold threads the plot state (first component) exactly as the source
does: the loop body reads `this.gScaleX`, ... and assigns only to the
`webgl` backend, so the state component is passed through each step
unchanged; the second component is the trace of backend commands. -/
def WebGLPlot.update (p : WebGLPlot) : WebGLPlot × List GLCommand :=
  p.lines.foldl
    (fun st line =>
      if line.visible then
        (st.1,
         st.2 ++
          [GLCommand.useProgram,
           GLCommand.uniformMatrix2fv (line.scaleX * st.1.gScaleX) 0 0
             (line.scaleY * st.1.gScaleY * st.1.gXYratio),
           GLCommand.uniform2fv (line.offsetX + st.1.gOffsetX)
             (line.offsetY + st.1.gOffsetY),
           GLCommand.uniform4fv line.color.r line.color.g line.color.b
             line.color.a,
           GLCommand.bufferData line.xy,
           GLCommand.drawArrays line.loop 0 line.webglNumPoints])
      else st)
    (p, [])

/-- addLine from the source: allocates the backend vertex buffer for the line and
appends it to `this.lines` (the push).  Only the collection effect is
modelled; the buffer handle lives in the backend. -/
def WebGLPlot.addLine (p : WebGLPlot) (line : WebglLine) : WebGLPlot :=
  { p with lines := p.lines ++ [line] }

/-- removeAllLines from the source: `this._lines = []`. -/
def WebGLPlot.removeAllLines (p : WebGLPlot) : WebGLPlot :=
  { p with lines := [] }

/-! Basic lemmas about the typed-array access primitives. -/

theorem f32set_length (buf : List ℚ) (index : ℤ) (v : ℚ) :
    (f32set buf index v).length = buf.length := by
  unfold f32set
  split <;> simp

theorem f32set_getElem (buf : List ℚ) (index : ℤ) (v : ℚ) (p : ℕ) :
    (f32set buf index v)[p]? =
      if index = (p : ℤ) ∧ p < buf.length then some v else buf[p]? := by
  unfold f32set
  split_ifs with h0 hc hc
  · rw [List.getElem?_set, if_pos (show index.toNat = p by omega),
      if_pos (show index.toNat < buf.length by omega)]
  · rw [List.getElem?_set]
    by_cases he : index.toNat = p
    · rw [if_pos he, if_neg (by omega)]
      rw [List.getElem?_eq_none (by omega)]
    · rw [if_neg he]
  · omega
  · rfl

theorem f32get_nonneg (buf : List ℚ) (index : ℤ) (h : 0 ≤ index) :
    f32get buf index = buf[index.toNat]? := by
  unfold f32get
  rw [if_pos h]

theorem getX_natCast (l : WebglLine) (i : ℕ) : l.getX (i : ℤ) = l.xy[2 * i]? := by
  unfold WebglLine.getX
  rw [f32get_nonneg _ _ (by omega)]
  congr 1
  omega

theorem getY_natCast (l : WebglLine) (i : ℕ) :
    l.getY (i : ℤ) = l.xy[2 * i + 1]? := by
  unfold WebglLine.getY
  rw [f32get_nonneg _ _ (by omega)]
  congr 1
  omega

/-- Two lines whose buffers agree at every even offset have the same `getX`
at every index (x values live at offsets `2 * i`). -/
theorem getX_congr_even (l1 l2 : WebglLine)
    (h : ∀ p : ℕ, p % 2 = 0 → l1.xy[p]? = l2.xy[p]?) (j : ℤ) :
    l1.getX j = l2.getX j := by
  unfold WebglLine.getX f32get
  split_ifs with hj
  · exact h _ (by omega)
  · rfl

/-- Two lines whose buffers agree at every odd offset have the same `getY`
at every index (y values live at offsets `2 * i + 1`). -/
theorem getY_congr_odd (l1 l2 : WebglLine)
    (h : ∀ p : ℕ, p % 2 = 1 → l1.xy[p]? = l2.xy[p]?) (j : ℤ) :
    l1.getY j = l2.getY j := by
  unfold WebglLine.getY f32get
  split_ifs with hj
  · exact h _ (by omega)
  · rfl

/-! Buffer-level views of the four loops of `WebglLine`.  Each `...B`
function is the action of the corresponding source loop on the flat `xy`
buffer alone; the `..._proj` lemmas identify them with the line-level
folds (which only ever write `xy`). -/

/-- Buffer action of the shift loop of `shiftAdd`:
`for (i = 0; i < m; i++) setY(i, getY(i + k))`. -/
def shiftLoopB (k : ℕ) (buf : List ℚ) (m : ℕ) : List ℚ :=
  (List.range m).foldl
    (fun b (i : ℕ) =>
      f32set b ((i : ℤ) * 2 + 1)
        ((f32get b (((i : ℤ) + (k : ℤ)) * 2 + 1)).getD 0)) buf

/-- Buffer action of the append loop of `shiftAdd`:
`for (i = 0; i < m; i++) setY(i + n - k, data[i])` (with `k = data.length`,
computed in `ℤ` exactly as in the source). -/
def appendLoopB (n : ℕ) (data : List ℚ) (buf : List ℚ) (m : ℕ) : List ℚ :=
  (List.range m).foldl
    (fun b (i : ℕ) =>
      f32set b (((i : ℤ) + (n : ℤ) - (data.length : ℤ)) * 2 + 1)
        (data.getD i 0)) buf

/-- Buffer action of the loop of `lineSpaceX`. -/
def linSpaceLoopB (s t : ℚ) (buf : List ℚ) (m : ℕ) : List ℚ :=
  (List.range m).foldl
    (fun b (i : ℕ) => f32set b ((i : ℤ) * 2) (s + t * (i : ℚ))) buf

/-- Buffer action of the loop of `constY`. -/
def constYLoopB (c : ℚ) (buf : List ℚ) (m : ℕ) : List ℚ :=
  (List.range m).foldl
    (fun b (i : ℕ) => f32set b ((i : ℤ) * 2 + 1) c) buf

theorem shiftLoopB_succ (k : ℕ) (buf : List ℚ) (m : ℕ) :
    shiftLoopB k buf (m + 1) =
      f32set (shiftLoopB k buf m) ((m : ℤ) * 2 + 1)
        ((f32get (shiftLoopB k buf m) (((m : ℤ) + (k : ℤ)) * 2 + 1)).getD 0) := by
  unfold shiftLoopB
  rw [List.range_succ, List.foldl_append]
  rfl

theorem appendLoopB_succ (n : ℕ) (data : List ℚ) (buf : List ℚ) (m : ℕ) :
    appendLoopB n data buf (m + 1) =
      f32set (appendLoopB n data buf m)
        (((m : ℤ) + (n : ℤ) - (data.length : ℤ)) * 2 + 1) (data.getD m 0) := by
  unfold appendLoopB
  rw [List.range_succ, List.foldl_append]
  rfl

theorem linSpaceLoopB_succ (s t : ℚ) (buf : List ℚ) (m : ℕ) :
    linSpaceLoopB s t buf (m + 1) =
      f32set (linSpaceLoopB s t buf m) ((m : ℤ) * 2) (s + t * (m : ℚ)) := by
  unfold linSpaceLoopB
  rw [List.range_succ, List.foldl_append]
  rfl

theorem constYLoopB_succ (c : ℚ) (buf : List ℚ) (m : ℕ) :
    constYLoopB c buf (m + 1) =
      f32set (constYLoopB c buf m) ((m : ℤ) * 2 + 1) c := by
  unfold constYLoopB
  rw [List.range_succ, List.foldl_append]
  rfl

theorem shiftLoopB_length (k : ℕ) (buf : List ℚ) (m : ℕ) :
    (shiftLoopB k buf m).length = buf.length := by
  induction m with
  | zero => rfl
  | succ m ih => rw [shiftLoopB_succ, f32set_length, ih]

theorem appendLoopB_length (n : ℕ) (data : List ℚ) (buf : List ℚ) (m : ℕ) :
    (appendLoopB n data buf m).length = buf.length := by
  induction m with
  | zero => rfl
  | succ m ih => rw [appendLoopB_succ, f32set_length, ih]

theorem linSpaceLoopB_length (s t : ℚ) (buf : List ℚ) (m : ℕ) :
    (linSpaceLoopB s t buf m).length = buf.length := by
  induction m with
  | zero => rfl
  | succ m ih => rw [linSpaceLoopB_succ, f32set_length, ih]

theorem constYLoopB_length (c : ℚ) (buf : List ℚ) (m : ℕ) :
    (constYLoopB c buf m).length = buf.length := by
  induction m with
  | zero => rfl
  | succ m ih => rw [constYLoopB_succ, f32set_length, ih]

theorem shift_loop_proj (k : ℕ) (ns : List ℕ) (l : WebglLine) :
    (ns.foldl
      (fun acc (i : ℕ) =>
        acc.setY (i : ℤ) ((acc.getY ((i : ℤ) + (k : ℤ))).getD 0)) l).xy =
      ns.foldl
        (fun b (i : ℕ) =>
          f32set b ((i : ℤ) * 2 + 1)
            ((f32get b (((i : ℤ) + (k : ℤ)) * 2 + 1)).getD 0)) l.xy := by
  induction ns generalizing l with
  | nil => rfl
  | cons j ns ih =>
    rw [List.foldl_cons, List.foldl_cons, ih]
    rfl

theorem append_loop_proj (n : ℕ) (data : List ℚ) (ns : List ℕ) (l : WebglLine) :
    (ns.foldl
      (fun acc (i : ℕ) =>
        acc.setY ((i : ℤ) + (n : ℤ) - (data.length : ℤ)) (data.getD i 0)) l).xy =
      ns.foldl
        (fun b (i : ℕ) =>
          f32set b (((i : ℤ) + (n : ℤ) - (data.length : ℤ)) * 2 + 1)
            (data.getD i 0)) l.xy := by
  induction ns generalizing l with
  | nil => rfl
  | cons j ns ih =>
    rw [List.foldl_cons, List.foldl_cons, ih]
    rfl

theorem linspace_loop_proj (s t : ℚ) (ns : List ℕ) (l : WebglLine) :
    (ns.foldl (fun acc (i : ℕ) => acc.setX (i : ℤ) (s + t * (i : ℚ))) l).xy =
      ns.foldl (fun b (i : ℕ) => f32set b ((i : ℤ) * 2) (s + t * (i : ℚ))) l.xy := by
  induction ns generalizing l with
  | nil => rfl
  | cons j ns ih =>
    rw [List.foldl_cons, List.foldl_cons, ih]
    rfl

theorem constY_loop_proj (c : ℚ) (ns : List ℕ) (l : WebglLine) :
    (ns.foldl (fun acc (i : ℕ) => acc.setY (i : ℤ) c) l).xy =
      ns.foldl (fun b (i : ℕ) => f32set b ((i : ℤ) * 2 + 1) c) l.xy := by
  induction ns generalizing l with
  | nil => rfl
  | cons j ns ih =>
    rw [List.foldl_cons, List.foldl_cons, ih]
    rfl

/-- The `xy` buffer after `shiftAdd`: the shift loop followed by the append
loop, at the buffer level. -/
theorem shiftAdd_xy (l : WebglLine) (data : List ℚ) :
    (l.shiftAdd data).xy =
      appendLoopB l.numPoints data
        (shiftLoopB data.length l.xy (l.numPoints - data.length))
        data.length := by
  unfold WebglLine.shiftAdd
  simp only []
  rw [append_loop_proj, shift_loop_proj]
  rfl

/-- The `xy` buffer after `lineSpaceX`, at the buffer level. -/
theorem lineSpaceX_xy (l : WebglLine) (s t : ℚ) :
    (l.lineSpaceX s t).xy = linSpaceLoopB s t l.xy l.numPoints := by
  unfold WebglLine.lineSpaceX
  rw [linspace_loop_proj]
  rfl

/-- The `xy` buffer after `constY`, at the buffer level. -/
theorem constY_xy (l : WebglLine) (c : ℚ) :
    (l.constY c).xy = constYLoopB c l.xy l.numPoints := by
  unfold WebglLine.constY
  rw [constY_loop_proj]
  rfl

/-! Pointwise characterisation of the loops.  The shift loop reads each
source cell before any iteration overwrites it (the read offset `i + k`
exceeds every index already written), so the sequential in-place loop
computes the parallel shift. -/

theorem shiftLoopB_getElem (k : ℕ) (buf : List ℚ) (m : ℕ) :
    2 * (m + k) ≤ buf.length → ∀ p : ℕ,
      (shiftLoopB k buf m)[p]? =
        if p % 2 = 1 ∧ p / 2 < m then buf[p + 2 * k]? else buf[p]? := by
  induction m with
  | zero =>
    intro _ p
    rw [if_neg (by omega)]
    rfl
  | succ m ih =>
    intro h p
    have h' : 2 * (m + k) ≤ buf.length := by omega
    have hidx : 2 * (m + k) + 1 < buf.length := by omega
    have hread :
        f32get (shiftLoopB k buf m) (((m : ℤ) + (k : ℤ)) * 2 + 1) =
          buf[2 * (m + k) + 1]? := by
      rw [f32get_nonneg _ _ (by omega),
        show ((((m : ℤ) + (k : ℤ)) * 2 + 1)).toNat = 2 * (m + k) + 1 by omega,
        ih h' (2 * (m + k) + 1), if_neg (by omega)]
    rw [shiftLoopB_succ, hread, List.getElem?_eq_getElem hidx]
    rw [f32set_getElem]
    simp only [Option.getD_some, shiftLoopB_length]
    by_cases hp : p = 2 * m + 1
    · subst hp
      rw [if_pos ⟨by omega, by omega⟩, if_pos ⟨by omega, by omega⟩,
        show 2 * m + 1 + 2 * k = 2 * (m + k) + 1 by omega,
        List.getElem?_eq_getElem hidx]
    · rw [if_neg (by omega), ih h' p]
      by_cases hcond : p % 2 = 1 ∧ p / 2 < m
      · rw [if_pos hcond, if_pos ⟨hcond.1, by omega⟩]
      · rw [if_neg hcond, if_neg (by omega)]

theorem appendLoopB_getElem (n : ℕ) (data : List ℚ) (buf : List ℚ)
    (hk : data.length ≤ n) (h : 2 * n ≤ buf.length) (m : ℕ) :
    m ≤ data.length → ∀ p : ℕ,
      (appendLoopB n data buf m)[p]? =
        if p % 2 = 1 ∧ n - data.length ≤ p / 2 ∧ p / 2 < n - data.length + m
        then some (data.getD (p / 2 - (n - data.length)) 0) else buf[p]? := by
  induction m with
  | zero =>
    intro _ p
    rw [if_neg (by omega)]
    rfl
  | succ m ih =>
    intro hm p
    have hm' : m ≤ data.length := by omega
    rw [appendLoopB_succ, f32set_getElem]
    simp only [appendLoopB_length]
    by_cases hp : p = 2 * (m + (n - data.length)) + 1
    · subst hp
      have hdiv : (2 * (m + (n - data.length)) + 1) / 2 - (n - data.length)
          = m := by omega
      rw [if_pos ⟨by omega, by omega⟩,
        if_pos ⟨by omega, by omega, by omega⟩, hdiv]
    · rw [if_neg (by omega), ih hm' p]
      by_cases hcond : p % 2 = 1 ∧ n - data.length ≤ p / 2 ∧
          p / 2 < n - data.length + m
      · rw [if_pos hcond, if_pos ⟨hcond.1, hcond.2.1, by omega⟩]
      · rw [if_neg hcond, if_neg (by omega)]

theorem linSpaceLoopB_getElem (s t : ℚ) (buf : List ℚ) (m : ℕ) :
    2 * m ≤ buf.length → ∀ p : ℕ,
      (linSpaceLoopB s t buf m)[p]? =
        if p % 2 = 0 ∧ p / 2 < m then some (s + t * ((p / 2 : ℕ) : ℚ))
        else buf[p]? := by
  induction m with
  | zero =>
    intro _ p
    rw [if_neg (by omega)]
    rfl
  | succ m ih =>
    intro h p
    have h' : 2 * m ≤ buf.length := by omega
    rw [linSpaceLoopB_succ, f32set_getElem]
    simp only [linSpaceLoopB_length]
    by_cases hp : p = 2 * m
    · subst hp
      rw [if_pos ⟨by omega, by omega⟩, if_pos ⟨by omega, by omega⟩,
        show 2 * m / 2 = m by omega]
    · rw [if_neg (by omega), ih h' p]
      by_cases hcond : p % 2 = 0 ∧ p / 2 < m
      · rw [if_pos hcond, if_pos ⟨hcond.1, by omega⟩]
      · rw [if_neg hcond, if_neg (by omega)]

theorem constYLoopB_getElem_even (c : ℚ) (buf : List ℚ) (m : ℕ) (p : ℕ)
    (hp : p % 2 = 0) :
    (constYLoopB c buf m)[p]? = buf[p]? := by
  induction m with
  | zero => rfl
  | succ m ih =>
    rw [constYLoopB_succ, f32set_getElem, if_neg (by omega), ih]

/-- Pointwise description of the whole `shiftAdd`, for `data.length ≤
numPoints`: odd offsets in the tail window hold the new data, odd offsets
before it hold the shifted old data, everything else is untouched. -/
theorem shiftAdd_getElem (l : WebglLine) (data : List ℚ)
    (hinv : l.xy.length = 2 * l.numPoints) (hk : data.length ≤ l.numPoints)
    (p : ℕ) :
    (l.shiftAdd data).xy[p]? =
      if p % 2 = 1 ∧ l.numPoints - data.length ≤ p / 2 ∧ p / 2 < l.numPoints
      then some (data.getD (p / 2 - (l.numPoints - data.length)) 0)
      else if p % 2 = 1 ∧ p / 2 < l.numPoints - data.length
      then l.xy[p + 2 * data.length]?
      else l.xy[p]? := by
  rw [shiftAdd_xy]
  rw [appendLoopB_getElem l.numPoints data _ hk
    (by rw [shiftLoopB_length]; omega) data.length le_rfl p]
  have hs := shiftLoopB_getElem data.length l.xy (l.numPoints - data.length)
    (by omega) p
  by_cases hc1 : p % 2 = 1 ∧ l.numPoints - data.length ≤ p / 2 ∧
      p / 2 < l.numPoints
  · rw [if_pos ⟨hc1.1, hc1.2.1, by omega⟩, if_pos hc1]
  · have hc1' : ¬(p % 2 = 1 ∧ l.numPoints - data.length ≤ p / 2 ∧
        p / 2 < l.numPoints - data.length + data.length) := by
      intro hx
      exact hc1 ⟨hx.1, hx.2.1, by omega⟩
    rw [if_neg hc1', if_neg hc1, hs]

/-- C1: for a line of capacity `n` and `k ≤ n` new y-values, `shiftAdd`
moves the pre-call `y[i+k]` to `y[i]` for `i < n - k` and writes
`newValues[i]` to `y[n-k+i]` for `i < k`; with `k = n` the y-values are
fully replaced by `newValues`. -/
theorem C1_shiftAdd_shift_then_append (l : WebglLine) (data : List ℚ)
    (hinv : l.xy.length = 2 * l.numPoints) (hk : data.length ≤ l.numPoints) :
    (∀ i : ℕ, i < l.numPoints - data.length →
        (l.shiftAdd data).getY (i : ℤ) = l.getY ((i + data.length : ℕ) : ℤ)) ∧
    (∀ i : ℕ, i < data.length →
        (l.shiftAdd data).getY ((l.numPoints - data.length + i : ℕ) : ℤ) =
          data[i]?) ∧
    (data.length = l.numPoints → ∀ i : ℕ, i < l.numPoints →
        (l.shiftAdd data).getY (i : ℤ) = data[i]?) := by
  have h1 : ∀ i : ℕ, i < l.numPoints - data.length →
      (l.shiftAdd data).getY (i : ℤ) = l.getY ((i + data.length : ℕ) : ℤ) := by
    intro i hi
    rw [getY_natCast, getY_natCast, shiftAdd_getElem l data hinv hk (2 * i + 1),
      if_neg (by omega), if_pos ⟨by omega, by omega⟩]
    congr 1
    omega
  have h2 : ∀ i : ℕ, i < data.length →
      (l.shiftAdd data).getY ((l.numPoints - data.length + i : ℕ) : ℤ) =
        data[i]? := by
    intro i hi
    rw [getY_natCast,
      shiftAdd_getElem l data hinv hk (2 * (l.numPoints - data.length + i) + 1),
      if_pos ⟨by omega, by omega, by omega⟩,
      show (2 * (l.numPoints - data.length + i) + 1) / 2 -
          (l.numPoints - data.length) = i by omega,
      List.getD_eq_getElem?_getD, List.getElem?_eq_getElem hi]
    rfl
  refine ⟨h1, h2, ?_⟩
  intro hn i hi
  have h := h2 i (by omega)
  rwa [show l.numPoints - data.length + i = i by omega] at h

/-- Witness for C1 on a concrete input: capacity 4, `shiftAdd([9, 8])`
puts 9 at index 2. -/
theorem C1_shiftAdd_shift_then_append_witness :
    ((WebglLine.create ⟨0, 0, 0, 1⟩ 4).shiftAdd [9, 8]).getY
      (((WebglLine.create ⟨0, 0, 0, 1⟩ 4).numPoints -
        ([(9 : ℚ), 8]).length + 0 : ℕ) : ℤ) = ([(9 : ℚ), 8])[0]? :=
  (C1_shiftAdd_shift_then_append (WebglLine.create ⟨0, 0, 0, 1⟩ 4) [9, 8]
    rfl (by decide)).2.1 0 (by decide)

/-- C5: for a valid index `0 ≤ i < numPoints`, `getX` after `setX(i, v)`
returns exactly `v`, and symmetrically for `setY` / `getY` (values are
rationals, so rounding to the storage width is out of scope by the claim's
own proviso). -/
theorem C5_set_then_get_roundtrip (l : WebglLine) (i : ℕ) (v : ℚ)
    (hinv : l.xy.length = 2 * l.numPoints) (hi : i < l.numPoints) :
    (l.setX (i : ℤ) v).getX (i : ℤ) = some v ∧
    (l.setY (i : ℤ) v).getY (i : ℤ) = some v := by
  constructor
  · rw [getX_natCast]
    show (f32set l.xy ((i : ℤ) * 2) v)[2 * i]? = some v
    rw [f32set_getElem, if_pos ⟨by omega, by omega⟩]
  · rw [getY_natCast]
    show (f32set l.xy ((i : ℤ) * 2 + 1) v)[2 * i + 1]? = some v
    rw [f32set_getElem, if_pos ⟨by omega, by omega⟩]

/-- Witness for C5 at capacity 1, index 0, value 5. -/
theorem C5_set_then_get_roundtrip_witness :
    ((WebglLine.create ⟨0, 0, 0, 1⟩ 1).setX ((0 : ℕ) : ℤ) 5).getX
        ((0 : ℕ) : ℤ) = some 5 ∧
    ((WebglLine.create ⟨0, 0, 0, 1⟩ 1).setY ((0 : ℕ) : ℤ) 5).getY
        ((0 : ℕ) : ℤ) = some 5 :=
  C5_set_then_get_roundtrip (WebglLine.create ⟨0, 0, 0, 1⟩ 1) 0 5 rfl
    (by decide)

/-- C6: after `lineSpaceX(start, step)`, `getX(i) = start + step * i` for
every `i < numPoints`, and no y-value changes. -/
theorem C6_lineSpaceX_values (l : WebglLine) (start stepSize : ℚ)
    (hinv : l.xy.length = 2 * l.numPoints) :
    (∀ i : ℕ, i < l.numPoints →
        (l.lineSpaceX start stepSize).getX (i : ℤ) =
          some (start + stepSize * (i : ℚ))) ∧
    (∀ j : ℤ, (l.lineSpaceX start stepSize).getY j = l.getY j) := by
  constructor
  · intro i hi
    rw [getX_natCast, lineSpaceX_xy,
      linSpaceLoopB_getElem start stepSize l.xy l.numPoints (by omega) (2 * i),
      if_pos ⟨by omega, by omega⟩, show 2 * i / 2 = i by omega]
  · intro j
    apply getY_congr_odd
    intro p hp
    rw [lineSpaceX_xy,
      linSpaceLoopB_getElem start stepSize l.xy l.numPoints (by omega) p,
      if_neg (by omega)]

/-- Witness for C6 at capacity 2, `lineSpaceX(1, 2)`. -/
theorem C6_lineSpaceX_values_witness :
    ((WebglLine.create ⟨0, 0, 0, 1⟩ 2).lineSpaceX 1 2).getX ((1 : ℕ) : ℤ) =
        some (1 + 2 * ((1 : ℕ) : ℚ)) ∧
    ((WebglLine.create ⟨0, 0, 0, 1⟩ 2).lineSpaceX 1 2).getY 0 =
        (WebglLine.create ⟨0, 0, 0, 1⟩ 2).getY 0 :=
  ⟨(C6_lineSpaceX_values (WebglLine.create ⟨0, 0, 0, 1⟩ 2) 1 2 rfl).1 1
      (by decide),
    (C6_lineSpaceX_values (WebglLine.create ⟨0, 0, 0, 1⟩ 2) 1 2 rfl).2 0⟩

/-- C7: `shiftAdd` with at most `numPoints` new values leaves every x-value
unchanged (it writes only odd buffer offsets). -/
theorem C7_shiftAdd_preserves_x (l : WebglLine) (data : List ℚ)
    (hinv : l.xy.length = 2 * l.numPoints) (hk : data.length ≤ l.numPoints) :
    ∀ j : ℤ, (l.shiftAdd data).getX j = l.getX j := by
  intro j
  apply getX_congr_even
  intro p hp
  rw [shiftAdd_getElem l data hinv hk p, if_neg (by omega), if_neg (by omega)]

/-- Witness for C7 at capacity 2, `shiftAdd([5])`, index 0. -/
theorem C7_shiftAdd_preserves_x_witness :
    ((WebglLine.create ⟨0, 0, 0, 1⟩ 2).shiftAdd [5]).getX 0 =
      (WebglLine.create ⟨0, 0, 0, 1⟩ 2).getX 0 :=
  C7_shiftAdd_preserves_x (WebglLine.create ⟨0, 0, 0, 1⟩ 2) [5] rfl
    (by decide) 0

/-- C9: the backing buffer has length `2 * numPoints` at construction and
every operation preserves the buffer length; nothing ever resizes it. -/
theorem C9_xy_length_invariant (c : ColorRGBA) (n : ℕ) (l : WebglLine)
    (i : ℤ) (v cst start stepSize : ℚ) (data : List ℚ) :
    (WebglLine.create c n).xy.length = 2 * n ∧
    (l.setX i v).xy.length = l.xy.length ∧
    (l.setY i v).xy.length = l.xy.length ∧
    (l.lineSpaceX start stepSize).xy.length = l.xy.length ∧
    (l.constY cst).xy.length = l.xy.length ∧
    (l.shiftAdd data).xy.length = l.xy.length := by
  refine ⟨?_, ?_, ?_, ?_, ?_, ?_⟩
  · simp [WebglLine.create]
  · exact f32set_length l.xy (i * 2) v
  · exact f32set_length l.xy (i * 2 + 1) v
  · rw [lineSpaceX_xy, linSpaceLoopB_length]
  · rw [constY_xy, constYLoopB_length]
  · rw [shiftAdd_xy, appendLoopB_length, shiftLoopB_length]

/-- C2 counter-evidence: `shiftAdd` with more values than the capacity does
not fail and does not leave the buffer unchanged.  At capacity 4,
`shiftAdd([1,2,3,4,5])` silently truncates: the write at index `-1` is
dropped by the typed array and the y-values become `[2,3,4,5]` (the last
four of the five inputs).  `shiftAdd` is total — the source has no error
path at all. -/
theorem C2_shiftAdd_overflow_truncates :
    ((WebglLine.create ⟨0, 0, 0, 1⟩ 4).shiftAdd [1, 2, 3, 4, 5]).xy =
        [0, 2, 0, 3, 0, 4, 0, 5] ∧
    ((WebglLine.create ⟨0, 0, 0, 1⟩ 4).shiftAdd [1, 2, 3, 4, 5]).xy ≠
        (WebglLine.create ⟨0, 0, 0, 1⟩ 4).xy := by
  decide

/-- C3 counter-evidence: the accessors have no bounds check and no error
path.  At capacity 2, `setX(5, 7)` and `setY(-1, 7)` silently leave the
buffer unchanged, and `getX(5)` / `getY(2)` return `undefined` (`none`)
rather than failing with an `IndexOutOfRange` error. -/
theorem C3_accessors_out_of_range_silent :
    ((WebglLine.create ⟨0, 0, 0, 1⟩ 2).setX 5 7).xy =
        (WebglLine.create ⟨0, 0, 0, 1⟩ 2).xy ∧
    ((WebglLine.create ⟨0, 0, 0, 1⟩ 2).setY (-1) 7).xy =
        (WebglLine.create ⟨0, 0, 0, 1⟩ 2).xy ∧
    (WebglLine.create ⟨0, 0, 0, 1⟩ 2).getX 5 = none ∧
    (WebglLine.create ⟨0, 0, 0, 1⟩ 2).getY 2 = none := by
  decide

/-- Unrolling of the `update` fold: the plot state is threaded through
unchanged and the trace is the concatenation, in list order, of the
six-command block of each visible line. -/
theorem update_foldl_spec (q : WebGLPlot) (ls : List WebglLine) :
    ∀ acc : List GLCommand,
      ls.foldl
        (fun st line =>
          if line.visible then
            (st.1,
             st.2 ++
              [GLCommand.useProgram,
               GLCommand.uniformMatrix2fv (line.scaleX * st.1.gScaleX) 0 0
                 (line.scaleY * st.1.gScaleY * st.1.gXYratio),
               GLCommand.uniform2fv (line.offsetX + st.1.gOffsetX)
                 (line.offsetY + st.1.gOffsetY),
               GLCommand.uniform4fv line.color.r line.color.g line.color.b
                 line.color.a,
               GLCommand.bufferData line.xy,
               GLCommand.drawArrays line.loop 0 line.webglNumPoints])
          else st) (q, acc) =
      (q, acc ++ (ls.filter (fun line => line.visible)).flatMap
        (fun line =>
          [GLCommand.useProgram,
           GLCommand.uniformMatrix2fv (line.scaleX * q.gScaleX) 0 0
             (line.scaleY * q.gScaleY * q.gXYratio),
           GLCommand.uniform2fv (line.offsetX + q.gOffsetX)
             (line.offsetY + q.gOffsetY),
           GLCommand.uniform4fv line.color.r line.color.g line.color.b
             line.color.a,
           GLCommand.bufferData line.xy,
           GLCommand.drawArrays line.loop 0 line.webglNumPoints])) := by
  induction ls with
  | nil =>
    intro acc
    simp
  | cons line ls ih =>
    intro acc
    cases hv : line.visible
    · simp [hv, ih]
    · simp [hv, ih, List.append_assoc]

/-- C4: `update` emits, per attached line with `visible = true` and in
attachment order, exactly one block of backend commands — the composed
scale `(scaleX * gScaleX, scaleY * gScaleY * gXYratio)`, the composed
offset `(offsetX + gOffsetX, offsetY + gOffsetY)`, the color, one buffer
upload of the line's current contents, and one draw call whose topology is
`LINE_LOOP` when `loop` is set and `LINE_STRIP` otherwise — and nothing
else. -/
theorem C4_update_draws_exactly_visible (p : WebGLPlot) :
    (p.update).2 = (p.lines.filter (fun line => line.visible)).flatMap
      (fun line =>
        [GLCommand.useProgram,
         GLCommand.uniformMatrix2fv (line.scaleX * p.gScaleX) 0 0
           (line.scaleY * p.gScaleY * p.gXYratio),
         GLCommand.uniform2fv (line.offsetX + p.gOffsetX)
           (line.offsetY + p.gOffsetY),
         GLCommand.uniform4fv line.color.r line.color.g line.color.b
           line.color.a,
         GLCommand.bufferData line.xy,
         GLCommand.drawArrays line.loop 0 line.webglNumPoints]) := by
  rw [WebGLPlot.update, update_foldl_spec]
  simp

/-- C8: any sequence of `addLine` calls followed by `removeAllLines`
leaves the line collection empty, and `update` on the result issues no
backend commands at all. -/
theorem C8_removeAllLines_then_update_empty (p : WebGLPlot)
    (ls : List WebglLine) :
    ((ls.foldl WebGLPlot.addLine p).removeAllLines).lines = [] ∧
    (((ls.foldl WebGLPlot.addLine p).removeAllLines).update).2 = [] :=
  ⟨rfl, rfl⟩

/-- C10: `update` mutates nothing: the returned plot state — every attached
line with all its fields, and the global scale/offset/ratio — is exactly
the input state. -/
theorem C10_update_never_mutates (p : WebGLPlot) : (p.update).1 = p := by
  rw [WebGLPlot.update, update_foldl_spec]
